import Mathlib

/-!
Verification development for the 2D tile-world mining game (`src/game.py`).

The simulation core is embedded shallowly:
* the tile grid becomes a function `Int → Int → Option BlockType` mutated by
  functional update (`setCell`);
* Python's global `random` module becomes an explicit stream of naturals
  (`RNG`); `randint lo hi` maps a draw into `[lo, hi]`, `random()` becomes a
  rational in `[0, 1)`, and `choice`/`choices` pick an index modulo the list
  length (weights in `random.choices` only shape the distribution, never the
  support, so a uniform index model is faithful for the properties below);
* Python floats carrying integer-or-fraction values (positions, velocities,
  mining progress, multipliers) become rationals;
* mutating methods become pure state-passing functions.

Python list indexing (negative wrap-around, `IndexError` past either end) is
modelled explicitly by `pyIdx`/`pyCellGet` where the source performs unguarded
accesses; everywhere else the source guards its indices and the total-function
grid is used directly.
-/

/-! ## Constants (from the top of `game.py`) -/

def PLAY_ROWS : Nat := 200

def BEDROCK_THICKNESS : Nat := 3

def ROWS : Nat := PLAY_ROWS + BEDROCK_THICKNESS

def COLS : Nat := 200

def TILE_SIZE : Nat := 32

def GRAVITY : ℚ := 1500

def JUMP_POWER : ℚ := -500

def MINING_RANGE : ℚ := 100

def DEFAULT_INVENTORY_SLOTS : Nat := 5

/-! ## Block kinds and the static tables `BLOCK_TYPES` / `BLOCK_XP` -/

inductive BlockType where
  | dirt
  | stone
  | wood
  | leaves
  | diamond_ore
  | gold_ore
  | iron_ore
  | coal
  | amethyst
  | ruby
  | magnesium
  | zinc
  | copper
  | tungsten
  | water
  | bedrock
deriving DecidableEq

def blockName : BlockType → String
  | .dirt => "dirt"
  | .stone => "stone"
  | .wood => "wood"
  | .leaves => "leaves"
  | .diamond_ore => "diamond_ore"
  | .gold_ore => "gold_ore"
  | .iron_ore => "iron_ore"
  | .coal => "coal"
  | .amethyst => "amethyst"
  | .ruby => "ruby"
  | .magnesium => "magnesium"
  | .zinc => "zinc"
  | .copper => "copper"
  | .tungsten => "tungsten"
  | .water => "water"
  | .bedrock => "bedrock"

/-- The `hardness` column of the `BLOCK_TYPES` dict, keyed by name string. -/
def BLOCK_TYPES_hardness : List (String × Nat) :=
  [("dirt", 2), ("stone", 3), ("wood", 2), ("leaves", 1), ("diamond_ore", 5),
   ("gold_ore", 4), ("iron_ore", 3), ("coal", 2), ("amethyst", 4), ("ruby", 4),
   ("magnesium", 3), ("zinc", 3), ("copper", 3), ("tungsten", 5), ("water", 0),
   ("bedrock", 9999)]

def strLookup (l : List (String × Nat)) (s : String) : Option Nat :=
  match l with
  | [] => none
  | e :: es => if e.1 = s then some e.2 else strLookup es s

/-- `BLOCK_TYPES.get(name, {'hardness': 1})['hardness']` as used by the shop. -/
def hardnessByName (s : String) : Nat :=
  (strLookup BLOCK_TYPES_hardness s).getD 1

/-- `BLOCK_TYPES[blockName bt]['hardness']` (every kind is in the table). -/
def hardness (bt : BlockType) : Nat :=
  hardnessByName (blockName bt)

/-- The `BLOCK_XP` dict, keyed by name string. -/
def BLOCK_XP : List (String × Nat) :=
  [("dirt", 1), ("stone", 2), ("wood", 3), ("leaves", 1), ("diamond_ore", 50),
   ("gold_ore", 25), ("iron_ore", 15), ("coal", 5), ("amethyst", 20), ("ruby", 20),
   ("magnesium", 10), ("zinc", 10), ("copper", 10), ("tungsten", 30), ("water", 0),
   ("bedrock", 0)]

/-- `BLOCK_XP.get(block_type, BLOCK_TYPES[block_type]['hardness'] * 10)`. -/
def blockXP (bt : BlockType) : Nat :=
  (strLookup BLOCK_XP (blockName bt)).getD (hardness bt * 10)

/-! ## The random source

`random` is modelled as a stream of naturals with a cursor; each primitive
consumes one draw. -/

structure RNG where
  stream : Nat → Nat
  pos : Nat

def RNG.next (r : RNG) : Nat × RNG :=
  (r.stream r.pos, ⟨r.stream, r.pos + 1⟩)

/-- `random.randint(lo, hi)` (inclusive on both ends, assuming `lo ≤ hi`). -/
def RNG.randint (r : RNG) (lo hi : Nat) : Nat × RNG :=
  let p := r.next
  (lo + p.1 % (hi + 1 - lo), p.2)

/-- `random.random()` as a rational in `[0, 1)` with granularity 1/1000. -/
def RNG.randUnit (r : RNG) : ℚ × RNG :=
  let p := r.next
  (((p.1 % 1000 : Nat) : ℚ) / 1000, p.2)

/-- `random.choice(xs)` / `random.choices(xs, weights)[0]`: an index into the
list.  The weighted variant is modelled with the same support. -/
def RNG.pick {α : Type} (r : RNG) (xs : List α) (d : α) : α × RNG :=
  let p := r.next
  (xs.getD (p.1 % xs.length) d, p.2)

/-! ## The tile grid -/

/-- The world grid: row, column ↦ cell content.  The Python value is a
`ROWS × COLS` list of lists; cells outside that rectangle are irrelevant to the
guarded code paths and set by nothing. -/
abbrev World := Int → Int → Option BlockType

def emptyWorld : World := fun _ _ => none

def setCell (w : World) (r c : Int) (v : Option BlockType) : World :=
  fun r' c' => if r' = r ∧ c' = c then v else w r' c'

/-! ## Terrain generation (`Game.generate_world` and helpers) -/

def stone_start : Nat := PLAY_ROWS * 2 / 3

/-- Fill one column: `dirt` on rows `[gl, stone_start)`, `stone` on rows
`[stone_start, PLAY_ROWS)`.  -/
def fillColumn (w : World) (c : Int) (gl : Nat) : World :=
  let w1 := (List.range' gl (stone_start - gl)).foldl
    (fun w (r : Nat) => setCell w (r : Int) c (some .dirt)) w
  (List.range' stone_start (PLAY_ROWS - stone_start)).foldl
    (fun w (r : Nat) => setCell w (r : Int) c (some .stone)) w1

/-- One iteration of the per-column loop of `generate_world`: draw a thickness
in `[4, 8]`, record the ground level `stone_start - thickness`, fill the
column. -/
def columnStep (acc : World × List Nat × RNG) (c : Nat) : World × List Nat × RNG :=
  let t := acc.2.2.randint 4 8
  (fillColumn acc.1 (c : Int) (stone_start - t.1),
   acc.2.1 ++ [stone_start - t.1], t.2)

/-- The per-column loop of `generate_world`. -/
def genColumns (w : World) (rng : RNG) : World × List Nat × RNG :=
  (List.range COLS).foldl columnStep (w, [], rng)

/-- `for col in range(n): world[r][col] = bedrock`. -/
def fillRow (w : World) (r : Int) (n : Nat) : World :=
  (List.range n).foldl (fun w (c : Nat) => setCell w r (c : Int) (some .bedrock)) w

/-- `for row in range(PLAY_ROWS, ROWS): for col in range(COLS): ... bedrock`. -/
def bedrockFill (w : World) : World :=
  (List.range' PLAY_ROWS BEDROCK_THICKNESS).foldl
    (fun w (r : Nat) => fillRow w (r : Int) COLS) w

/-- Python `range(lo, hi)` over integers. -/
def intRange (lo hi : Int) : List Int :=
  (List.range (hi - lo).toNat).map (fun i => lo + (i : Int))

/-- The trunk loop of `generate_tree`: wood on the empty cells of rows
`[max(0, y - th), y)` of column `x`. -/
def treeTrunk (w : World) (x y th : Int) : World :=
  (intRange (max 0 (y - th)) y).foldl
    (fun w r => if w r x = none then setCell w r x (some .wood) else w) w

/-- One cell of the canopy loop of `generate_tree`: bounds-checked, only into
empty cells, with probability 0.7. -/
def leafStep (acc : World × RNG) (p : Int × Int) : World × RNG :=
  if 0 ≤ p.1 ∧ p.1 < (PLAY_ROWS : Int) ∧ 0 ≤ p.2 ∧ p.2 < (COLS : Int) then
    if acc.1 p.1 p.2 = none then
      if (acc.2.randUnit).1 < 7 / 10 then
        (setCell acc.1 p.1 p.2 (some .leaves), (acc.2.randUnit).2)
      else (acc.1, (acc.2.randUnit).2)
    else acc
  else acc

/-- The canopy loop of `generate_tree`: rows `top_y - 1 .. top_y + 1`, columns
`x - 2 .. x + 2` (Python iterates rows outer, columns inner). -/
def treeLeaves (w : World) (rng : RNG) (x top_y : Int) : World × RNG :=
  ((intRange (top_y - 1) (top_y + 2)).flatMap
    (fun ly => (intRange (x - 2) (x + 3)).map (fun lx => (ly, lx)))).foldl
    leafStep (w, rng)

/-- `Game.generate_tree(x, y, world)`. -/
def generateTree (w : World) (rng : RNG) (x y : Int) : World × RNG :=
  let t := rng.randint 4 7
  treeLeaves (treeTrunk w x y (t.1 : Int)) t.2 x (max 0 (y - (t.1 : Int)))

/-- `for col in range(2, COLS - 2): if random.random() < 0.2: generate_tree`. -/
def genTrees (w : World) (gls : List Nat) (rng : RNG) : World × RNG :=
  (List.range' 2 (COLS - 4)).foldl
    (fun acc (c : Nat) =>
      let u := acc.2.randUnit
      if u.1 < 1 / 5 then generateTree acc.1 u.2 (c : Int) ((gls.getD c 0 : Nat) : Int)
      else (acc.1, u.2))
    (w, rng)

def oreTypes : List BlockType :=
  [.coal, .amethyst, .ruby, .magnesium, .zinc, .copper, .tungsten,
   .gold_ore, .diamond_ore, .iron_ore]

def veinDirs : List (Int × Int) :=
  [(1, 0), (-1, 0), (0, 1), (0, -1), (1, 1), (-1, -1), (1, -1), (-1, 1)]

/-- The inner `for _ in range(length)` walk of `generate_ore_veins`: write the
current cell (only if in bounds and currently stone), then step to a random
8-neighbour. -/
def veinWalk (w : World) (rng : RNG) (ore : BlockType) :
    Nat → Int → Int → World × RNG
  | 0, _, _ => (w, rng)
  | n + 1, col, row =>
    let w' :=
      if 0 ≤ row ∧ row < (PLAY_ROWS : Int) ∧ 0 ≤ col ∧ col < (COLS : Int) ∧
          w row col = some .stone
      then setCell w row col (some ore) else w
    let d := rng.pick veinDirs (0, 0)
    veinWalk w' d.2 ore n (col + d.1.1) (row + d.1.2)

/-- One vein of `generate_ore_veins`: draw the ore kind, walk length and start
cell, then run the walk. -/
def veinStep (acc : World × RNG) (_ : Nat) : World × RNG :=
  let o := acc.2.pick oreTypes .coal
  let len := o.2.randint 5 20
  let sc := len.2.randint 0 (COLS - 1)
  let sr := sc.2.randint stone_start (PLAY_ROWS - 1)
  veinWalk acc.1 sr.2 o.1 len.1 (sc.1 : Int) (sr.1 : Int)

/-- `Game.generate_ore_veins(world, stone_start)`. -/
def generateOreVeins (w : World) (rng : RNG) : World × RNG :=
  let nv := rng.randint 10 20
  (List.range nv.1).foldl veinStep (w, nv.2)

/-- `Game.generate_world`, returning the grid, the `ground_levels` list and the
final random state. -/
def generateWorld (rng : RNG) : World × List Nat × RNG :=
  let g := genColumns emptyWorld rng
  let w2 := bedrockFill g.1
  let t := genTrees w2 g.2.1 g.2.2
  let v := generateOreVeins t.1 t.2
  (v.1, g.2.1, v.2)

/-! ## The player (`Player.__init__` and mining, `game.py` lines 90-245) -/

/-- Inventory keys: the Python dict mixes the integer `0` (the starting
Pickaxe slot) with block-name strings. -/
inductive InvKey where
  | slot : Nat → InvKey
  | kind : String → InvKey
deriving DecidableEq

structure Player where
  x : ℚ
  y : ℚ
  width : ℚ
  height : ℚ
  vel_x : ℚ
  vel_y : ℚ
  on_ground : Bool
  selected_slot : Nat
  inventory : List (InvKey × String × Nat)
  health : Nat
  max_health : Nat
  stamina : Nat
  max_stamina : Nat
  level : Nat
  experience : Nat
  mining_progress : ℚ
  mining_target : Int × Int
  hurt_timer : ℚ
  animation_frame : Nat
  direction : Int
  money : Int
  inventory_slots : Nat
  pickaxe_multiplier : ℚ
  movement_multiplier : ℚ
  block_value_multiplier : ℚ
  double_jump_unlocked : Bool
  triple_jump_unlocked : Bool
  jumps_remaining : Int
deriving DecidableEq

/-- `Player.__init__(x, y)`.  `experience` is kept as a natural number: it
starts at `0` and every XP grant and level-up delta in the source is a
non-negative integer. -/
def initPlayer (x y : ℚ) : Player where
  x := x
  y := y
  width := (TILE_SIZE : ℚ)
  height := (TILE_SIZE : ℚ)
  vel_x := 0
  vel_y := 0
  on_ground := false
  selected_slot := 0
  inventory := [(InvKey.slot 0, ("Pickaxe", 1))]
  health := 100
  max_health := 100
  stamina := 100
  max_stamina := 100
  level := 1
  experience := 0
  mining_progress := 0
  mining_target := (0, 0)
  hurt_timer := 0
  animation_frame := 0
  direction := 1
  money := 0
  inventory_slots := DEFAULT_INVENTORY_SLOTS
  pickaxe_multiplier := 1
  movement_multiplier := 1
  block_value_multiplier := 1
  double_jump_unlocked := false
  triple_jump_unlocked := false
  jumps_remaining := 1

def invLookup (inv : List (InvKey × String × Nat)) (k : InvKey) :
    Option (String × Nat) :=
  match inv with
  | [] => none
  | e :: es => if e.1 = k then some e.2 else invLookup es k

/-- Python dict assignment: update in place if the key exists, else append. -/
def dictSet (inv : List (InvKey × String × Nat)) (k : InvKey) (v : String × Nat) :
    List (InvKey × String × Nat) :=
  match invLookup inv k with
  | some _ => inv.map (fun e => if e.1 = k then (k, v) else e)
  | none => inv ++ [(k, v)]

/-- The inventory bump on a successful extraction (`mine_block` lines
233-237). -/
def invAdd (inv : List (InvKey × String × Nat)) (name : String) :
    List (InvKey × String × Nat) :=
  match invLookup inv (InvKey.kind name) with
  | some nc => dictSet inv (InvKey.kind name) (nc.1, nc.2 + 1)
  | none => dictSet inv (InvKey.kind name) (name, 1)

/-- The level-up loop: `while experience >= level * 100: experience -= level *
100; level += 1`.  Terminates because `level` grows strictly while
`experience` never grows. -/
def levelLoop (level exp : Nat) : Nat × Nat :=
  if h : level * 100 ≤ exp then
    levelLoop (level + 1) (exp - level * 100)
  else (level, exp)
termination_by exp / 100 + 2 - level
decreasing_by
  have h1 : level ≤ exp / 100 := (Nat.le_div_iff_mul_le (by norm_num)).2 h
  have h2 : (exp - level * 100) / 100 ≤ exp / 100 :=
    Nat.div_le_div_right (Nat.sub_le _ _)
  omega

/-- The per-hit progress rate `(1 + 0.05 * (level - 1)) * pickaxe_multiplier`.
The subtraction is rational, as in Python. -/
def bonusOf (p : Player) : ℚ :=
  (1 + (1 / 20) * ((p.level : ℚ) - 1)) * p.pickaxe_multiplier

/-- The completed-extraction branch of `Player.mine_block` (lines 227-245):
grant XP, run the level loop, bump the inventory, clear the cell, reset
progress, and snap the player to the cell if their centre was inside it. -/
def mineComplete (p : Player) (w : World) (pos : Int × Int) (bt : BlockType) :
    Player × World :=
  let le := levelLoop p.level (p.experience + blockXP bt)
  let inv' := invAdd p.inventory (blockName bt)
  let cx := p.x + p.width / 2
  let cy := p.y + p.height / 2
  let snapped :=
    if ((pos.1 : ℚ) * 32 ≤ cx ∧ cx < ((pos.1 : ℚ) + 1) * 32) ∧
        ((pos.2 : ℚ) * 32 ≤ cy ∧ cy < ((pos.2 : ℚ) + 1) * 32)
    then ((pos.1 : ℚ) * 32, (pos.2 : ℚ) * 32)
    else (p.x, p.y)
  ({ p with
      level := le.1
      experience := le.2
      inventory := inv'
      mining_progress := 0
      x := snapped.1
      y := snapped.2 },
   setCell w pos.2 pos.1 none)

/-- `Player.mine_block(world, grid_pos)` with `grid_pos = (col, row)`.
Out-of-bounds targets, empty cells and bedrock are rejected unchanged;
otherwise progress accrues and, at the hardness threshold (`hardness * 20`),
the extraction branch fires. -/
def mineBlock (p : Player) (w : World) (pos : Int × Int) : Player × World :=
  if 0 ≤ pos.2 ∧ pos.2 < (ROWS : Int) ∧ 0 ≤ pos.1 ∧ pos.1 < (COLS : Int) then
    match w pos.2 pos.1 with
    | none => (p, w)
    | some bt =>
      if bt = BlockType.bedrock then (p, w)
      else
        if ((hardness bt : ℚ) * 20) ≤ p.mining_progress + bonusOf p then
          mineComplete p w pos bt
        else ({ p with mining_progress := p.mining_progress + bonusOf p }, w)
  else (p, w)

/-- The mining branch of `Game.handle_input` (lines 446-457), after the range
check owned by the caller: call `mine_block`, then record the clicked cell as
the mining target. -/
def mineAction (p : Player) (w : World) (pos : Int × Int) : Player × World :=
  ({ (mineBlock p w pos).1 with mining_target := pos }, (mineBlock p w pos).2)

/-! ## Vertical collision with Python list semantics (`Player.update`,
lines 162-180)

The source indexes `world[bottom_row][col]` after checking only
`bottom_row < ROWS`.  Python list indexing accepts indices in
`[-len, len)` (negative ones wrap) and raises `IndexError` otherwise, so the
accesses are modelled in `Except`. -/

/-- Python list index resolution for a list of length `n`. -/
def pyIdx (n : Nat) (i : Int) : Except Unit Int :=
  if 0 ≤ i ∧ i < (n : Int) then Except.ok i
  else if -(n : Int) ≤ i ∧ i < 0 then Except.ok (i + n)
  else Except.error ()

/-- `world[r][c]` on the `ROWS × COLS` grid, with Python index semantics. -/
def pyCellGet (w : World) (r c : Int) : Except Unit (Option BlockType) :=
  match pyIdx ROWS r, pyIdx COLS c with
  | Except.ok r', Except.ok c' => Except.ok (w r' c')
  | _, _ => Except.error ()

/-- The `for col in range(left_col, right_col + 1)` scan: stop with `true` on
the first occupied cell, propagate an `IndexError`, return `false` if no cell
collides. -/
def vertScanLoop (w : World) (bRow : Int) : List Int → Except Unit Bool
  | [] => Except.ok false
  | c :: cs =>
    if bRow < (ROWS : Int) then
      match pyCellGet w bRow c with
      | Except.error e => Except.error e
      | Except.ok cell =>
        if cell.isSome then Except.ok true else vertScanLoop w bRow cs
    else vertScanLoop w bRow cs

/-- The vertical-movement block of `Player.update`: gravity, tentative `y`,
and the bottom-edge collision scan across the body's horizontal extent.
Returns `(new_y, vel_y, on_ground)` or an `IndexError`. -/
def verticalStep (w : World) (x y vel_y width height dt : ℚ)
    (on_ground : Bool) : Except Unit (ℚ × ℚ × Bool) :=
  let vy := if on_ground then vel_y else vel_y + GRAVITY * dt
  let new_y := y + vy * dt
  let bottom := new_y + height
  let bRow : Int := ⌊bottom / 32⌋
  let lc : Int := ⌊x / 32⌋
  let rc : Int := ⌊(x + width - 1) / 32⌋
  match vertScanLoop w bRow (intRange lc (rc + 1)) with
  | Except.error e => Except.error e
  | Except.ok true => Except.ok ((bRow : ℚ) * 32 - height, 0, true)
  | Except.ok false => Except.ok (new_y, vy, false)

/-! ## Shop actions (`game.py` lines 679-723) -/

/-- Python `int()` on a rational: truncation toward zero. -/
def ratTrunc (q : ℚ) : Int :=
  if q < 0 then ⌈q⌉ else ⌊q⌋

/-- `Game.shop_sell_goods`: price every entry whose key is not `0` at
`hardness * 5 * count * block_value_multiplier`, delete those entries, and add
the truncated total to `money`. -/
def sellGoods (p : Player) : Player :=
  let toRemove := p.inventory.filter (fun e => decide (¬ e.1 = InvKey.slot 0))
  let total : ℚ := toRemove.foldl
    (fun acc e =>
      acc + ((hardnessByName e.2.1 * 5 : Nat) : ℚ) * (e.2.2 : ℚ) *
        p.block_value_multiplier)
    0
  { p with
      inventory := p.inventory.filter (fun e => decide (e.1 = InvKey.slot 0))
      money := p.money + ratTrunc total }

def shopUpgradeBackpack (p : Player) : Player :=
  if 100 ≤ p.money then
    { p with money := p.money - 100, inventory_slots := p.inventory_slots + 5 }
  else p

def shopUpgradePickaxe (p : Player) : Player :=
  if 200 ≤ p.money then
    { p with money := p.money - 200,
             pickaxe_multiplier := p.pickaxe_multiplier * (6 / 5) }
  else p

def shopUpgradeMovement (p : Player) : Player :=
  if 150 ≤ p.money then
    { p with money := p.money - 150,
             movement_multiplier := p.movement_multiplier * (6 / 5) }
  else p

def shopUpgradeDoubleJump (p : Player) : Player :=
  if ¬ p.double_jump_unlocked ∧ 250 ≤ p.money then
    { p with money := p.money - 250, double_jump_unlocked := true }
  else p

def shopUpgradeTripleJump (p : Player) : Player :=
  if ¬ p.triple_jump_unlocked ∧ 500 ≤ p.money then
    { p with money := p.money - 500, triple_jump_unlocked := true }
  else p

def shopUpgradeBlockValue (p : Player) : Player :=
  if 75 ≤ p.money then
    { p with money := p.money - 75,
             block_value_multiplier := p.block_value_multiplier * (6 / 5) }
  else p

/-! ## General fold lemmas -/

theorem foldl_invariant {α β : Type} (P : α → Prop) (f : α → β → α)
    (hstep : ∀ a b, P a → P (f a b)) :
    ∀ (l : List β) (a : α), P a → P (l.foldl f a) := by
  intro l
  induction l with
  | nil => intro a h; exact h
  | cons x xs ih => intro a h; exact ih _ (hstep _ _ h)

/-! ## The bedrock invariant -/

/-- Every cell of the reserved bottom rows (`PLAY_ROWS ≤ row < ROWS`, all
in-range columns) holds bedrock. -/
def BedrockOK (w : World) : Prop :=
  ∀ r c : Int, (PLAY_ROWS : Int) ≤ r → r < (ROWS : Int) →
    0 ≤ c → c < (COLS : Int) → w r c = some BlockType.bedrock

/-- Writing to a cell whose current content is not bedrock cannot leave the
bedrock region: under `BedrockOK` every region cell already holds bedrock. -/
theorem setCell_bedrockOK_of_ne (w : World) (r c : Int) (v : Option BlockType)
    (h : BedrockOK w) (hne : w r c ≠ some BlockType.bedrock) :
    BedrockOK (setCell w r c v) := by
  intro r' c' h1 h2 h3 h4
  rw [setCell, if_neg]
  · exact h r' c' h1 h2 h3 h4
  · rintro ⟨rfl, rfl⟩
    exact hne (h r' c' h1 h2 h3 h4)

theorem fillRow_apply (w : World) (r : Int) (n : Nat) (r' c' : Int) :
    fillRow w r n r' c' =
      if r' = r ∧ 0 ≤ c' ∧ c' < (n : Int) then some BlockType.bedrock
      else w r' c' := by
  induction n with
  | zero =>
      have hcond : ¬ (r' = r ∧ 0 ≤ c' ∧ c' < ((0 : Nat) : Int)) := by
        rintro ⟨-, h2, h3⟩
        omega
      rw [if_neg hcond]
      rfl
  | succ n ih =>
      have step : fillRow w r (n + 1) =
          setCell (fillRow w r n) r (n : Int) (some BlockType.bedrock) := by
        rw [fillRow, fillRow, List.range_succ, List.foldl_append,
          List.foldl_cons, List.foldl_nil]
      rw [step, setCell, ih]
      split_ifs <;> first | rfl | (exfalso; push_cast at *; omega)

theorem bedrockFill_apply (w : World) (r' c' : Int) :
    bedrockFill w r' c' =
      if ((PLAY_ROWS : Int) ≤ r' ∧ r' < (ROWS : Int)) ∧ 0 ≤ c' ∧ c' < (COLS : Int)
      then some BlockType.bedrock else w r' c' := by
  have hr : List.range' PLAY_ROWS BEDROCK_THICKNESS = [200, 201, 202] := rfl
  rw [bedrockFill, hr, List.foldl_cons, List.foldl_cons, List.foldl_cons,
    List.foldl_nil, fillRow_apply, fillRow_apply, fillRow_apply]
  have hpr : (PLAY_ROWS : Int) = 200 := rfl
  have hrr : (ROWS : Int) = 203 := rfl
  have hcc : (COLS : Int) = 200 := rfl
  rw [hpr, hrr, hcc]
  split_ifs <;> first | rfl | (exfalso; push_cast at *; omega)

theorem bedrockFill_ok (w : World) : BedrockOK (bedrockFill w) := by
  intro r c h1 h2 h3 h4
  rw [bedrockFill_apply, if_pos ⟨⟨h1, h2⟩, h3, h4⟩]

theorem treeTrunk_ok (w : World) (x y th : Int) (h : BedrockOK w) :
    BedrockOK (treeTrunk w x y th) := by
  rw [treeTrunk]
  refine foldl_invariant BedrockOK _ ?_ _ _ h
  intro a r ha
  split_ifs with hempty
  · exact setCell_bedrockOK_of_ne _ _ _ _ ha (by rw [hempty]; simp)
  · exact ha

theorem leafStep_ok (acc : World × RNG) (p : Int × Int)
    (h : BedrockOK acc.1) : BedrockOK (leafStep acc p).1 := by
  rw [leafStep]
  split_ifs with hb hempty hu
  · exact setCell_bedrockOK_of_ne _ _ _ _ h (by rw [hempty]; simp)
  · exact h
  · exact h
  · exact h

theorem treeLeaves_ok (w : World) (rng : RNG) (x top_y : Int)
    (h : BedrockOK w) : BedrockOK (treeLeaves w rng x top_y).1 := by
  rw [treeLeaves]
  exact foldl_invariant (fun acc : World × RNG => BedrockOK acc.1) _
    (fun a b ha => leafStep_ok a b ha) _ _ h

theorem generateTree_ok (w : World) (rng : RNG) (x y : Int) (h : BedrockOK w) :
    BedrockOK (generateTree w rng x y).1 :=
  treeLeaves_ok _ _ _ _ (treeTrunk_ok _ _ _ _ h)

theorem genTrees_ok (w : World) (gls : List Nat) (rng : RNG)
    (h : BedrockOK w) : BedrockOK (genTrees w gls rng).1 := by
  rw [genTrees]
  refine foldl_invariant (fun acc : World × RNG => BedrockOK acc.1) _ ?_ _ _ h
  intro a c ha
  dsimp only
  split_ifs with hu
  · exact generateTree_ok _ _ _ _ ha
  · exact ha

theorem veinWalk_succ (w : World) (rng : RNG) (ore : BlockType) (n : Nat)
    (col row : Int) :
    veinWalk w rng ore (n + 1) col row =
      veinWalk
        (if 0 ≤ row ∧ row < (PLAY_ROWS : Int) ∧ 0 ≤ col ∧ col < (COLS : Int) ∧
            w row col = some BlockType.stone
         then setCell w row col (some ore) else w)
        (rng.pick veinDirs (0, 0)).2 ore n
        (col + (rng.pick veinDirs (0, 0)).1.1)
        (row + (rng.pick veinDirs (0, 0)).1.2) := rfl

theorem veinWalk_ok (ore : BlockType) :
    ∀ (n : Nat) (w : World) (rng : RNG) (col row : Int), BedrockOK w →
      BedrockOK (veinWalk w rng ore n col row).1 := by
  intro n
  induction n with
  | zero => intro w rng col row h; exact h
  | succ n ih =>
      intro w rng col row h
      rw [veinWalk_succ]
      apply ih
      split_ifs with hg
      · exact setCell_bedrockOK_of_ne _ _ _ _ h (by rw [hg.2.2.2.2]; simp)
      · exact h

theorem veinStep_ok (acc : World × RNG) (i : Nat) (h : BedrockOK acc.1) :
    BedrockOK (veinStep acc i).1 :=
  veinWalk_ok _ _ _ _ _ _ h

theorem generateOreVeins_ok (w : World) (rng : RNG) (h : BedrockOK w) :
    BedrockOK (generateOreVeins w rng).1 := by
  rw [generateOreVeins]
  exact foldl_invariant (fun acc : World × RNG => BedrockOK acc.1) _
    veinStep_ok _ _ h

theorem generateWorld_ok (rng : RNG) : BedrockOK (generateWorld rng).1 :=
  generateOreVeins_ok _ _ (genTrees_ok _ _ _ (bedrockFill_ok _))

theorem mineComplete_world (p : Player) (w : World) (pos : Int × Int)
    (bt : BlockType) :
    (mineComplete p w pos bt).2 = setCell w pos.2 pos.1 none := rfl

theorem mineBlock_ok (p : Player) (w : World) (pos : Int × Int)
    (h : BedrockOK w) : BedrockOK (mineBlock p w pos).2 := by
  unfold mineBlock
  split
  · split
    · exact h
    · rename_i bt hcell
      split_ifs with hbed hth
      · exact h
      · rw [mineComplete_world]
        refine setCell_bedrockOK_of_ne _ _ _ _ h ?_
        rw [hcell]
        simp [hbed]
      · exact h
  · exact h

/-! ## Level-loop lemmas -/

theorem levelLoop_eq (level exp : Nat) :
    levelLoop level exp =
      if level * 100 ≤ exp then levelLoop (level + 1) (exp - level * 100)
      else (level, exp) := by
  rw [levelLoop]
  split_ifs <;> rfl

theorem levelLoop_post (level exp : Nat) :
    (levelLoop level exp).2 < (levelLoop level exp).1 * 100 ∧
      level ≤ (levelLoop level exp).1 := by
  induction level, exp using levelLoop.induct with
  | case1 level exp h ih =>
      rw [levelLoop_eq, if_pos h]
      exact ⟨ih.1, Nat.le_trans (Nat.le_succ level) ih.2⟩
  | case2 level exp h =>
      rw [levelLoop_eq, if_neg h]
      exact ⟨Nat.lt_of_not_le h, Nat.le_refl level⟩

theorem levelLoop_1_250 : levelLoop 1 250 = (2, 150) := by
  rw [levelLoop_eq]
  norm_num
  rw [levelLoop_eq]
  norm_num

/-! ## Ground-level lemmas -/

theorem foldl_columnStep_length (l : List Nat) (acc : World × List Nat × RNG) :
    (l.foldl columnStep acc).2.1.length = acc.2.1.length + l.length := by
  induction l generalizing acc with
  | nil => rfl
  | cons x xs ih =>
      rw [List.foldl_cons, ih]
      simp [columnStep]
      omega

theorem genColumns_gls_length (w : World) (rng : RNG) :
    (genColumns w rng).2.1.length = COLS := by
  rw [genColumns, foldl_columnStep_length]
  simp [List.length_range]

theorem genColumns_gls_mem (w : World) (rng : RNG) :
    ∀ g ∈ (genColumns w rng).2.1, 125 ≤ g ∧ g ≤ 129 := by
  rw [genColumns]
  refine foldl_invariant
    (fun acc : World × List Nat × RNG => ∀ g ∈ acc.2.1, 125 ≤ g ∧ g ≤ 129)
    columnStep ?_ _ _ ?_
  · intro a c ha g hg
    rw [columnStep] at hg
    rcases List.mem_append.1 hg with h | h
    · exact ha g h
    · have hs : stone_start = 133 := rfl
      have hm : a.2.2.stream a.2.2.pos % 5 < 5 := Nat.mod_lt _ (by norm_num)
      simp [RNG.randint, RNG.next] at h
      omega
  · intro g hg
    exact absurd hg (List.not_mem_nil g)

theorem generateWorld_gls (rng : RNG) :
    (generateWorld rng).2.1 = (genColumns emptyWorld rng).2.1 := rfl

theorem gls_getD_bounds (rng : RNG) (i : Nat) (hi : i < COLS) :
    125 ≤ (generateWorld rng).2.1.getD i 127 ∧
      (generateWorld rng).2.1.getD i 127 ≤ 129 := by
  rw [generateWorld_gls]
  have hlen : i < (genColumns emptyWorld rng).2.1.length := by
    rw [genColumns_gls_length]
    exact hi
  rw [List.getD_eq_getElem?_getD, List.getElem?_eq_getElem hlen, Option.getD_some]
  exact genColumns_gls_mem emptyWorld rng _ (List.getElem_mem hlen)

/-! ## Concrete worlds, players and random streams used as test inputs -/

/-- A stream whose draw at index 1 is 4 and 0 elsewhere: thickness 4 for
column 0 and thickness 8 for column 1. -/
def rngA : RNG := ⟨fun i => if i = 1 then 4 else 0, 0⟩

/-- The all-4 stream: thickness 8 for every column. -/
def rngB : RNG := ⟨fun _ => 4, 0⟩

/-- A world holding a single stone block at row 133, column 5. -/
def wStone : World := setCell emptyWorld 133 5 (some BlockType.stone)

/-- A world holding stone blocks at row 133, columns 5 and 6. -/
def wTwoStone : World :=
  setCell (setCell emptyWorld 133 5 (some BlockType.stone)) 133 6
    (some BlockType.stone)

/-- A world of nothing but bedrock. -/
def wBedrock : World := fun _ _ => some BlockType.bedrock

/-- A player who has accrued progress 1 against target cell (5, 133). -/
def pMid : Player :=
  { initPlayer 0 0 with mining_progress := 1, mining_target := (5, 133) }

/-! ## Claims -/

/-- Claim C2: in every generated world every cell of the bottom
`BEDROCK_THICKNESS` rows (rows `PLAY_ROWS .. ROWS - 1`, all columns) holds
bedrock, and this remains true after any sequence of mining operations (the
only post-generation grid mutator), because mining rejects bedrock.  The row
`PLAY_ROWS + r % BEDROCK_THICKNESS` and column `c % COLS` range over exactly
the bedrock region as `r` and `c` range over the integers. -/
theorem bedrock_rows_invariant (rng : RNG) (p0 : Player)
    (ms : List (Int × Int)) (r c : Int) :
    ((ms.foldl (fun s pos => mineBlock s.1 s.2 pos)
        (p0, (generateWorld rng).1)).2)
      ((PLAY_ROWS : Int) + r % (BEDROCK_THICKNESS : Int))
      (c % (COLS : Int)) = some BlockType.bedrock := by
  have hok : BedrockOK
      (ms.foldl (fun s pos => mineBlock s.1 s.2 pos)
        (p0, (generateWorld rng).1)).2 :=
    foldl_invariant (fun s : Player × World => BedrockOK s.2)
      (fun s pos => mineBlock s.1 s.2 pos)
      (fun s pos hs => mineBlock_ok s.1 s.2 pos hs) ms _ (generateWorld_ok rng)
  have h3 : (0 : Int) < (BEDROCK_THICKNESS : Int) := by norm_num [BEDROCK_THICKNESS]
  have hc : (0 : Int) < (COLS : Int) := by norm_num [COLS]
  have hr1 := Int.emod_nonneg r (ne_of_gt h3)
  have hr2 := Int.emod_lt_of_pos r h3
  have hc1 := Int.emod_nonneg c (ne_of_gt hc)
  have hc2 := Int.emod_lt_of_pos c hc
  have hRR : (ROWS : Int) = (PLAY_ROWS : Int) + (BEDROCK_THICKNESS : Int) := by
    norm_num [ROWS, PLAY_ROWS, BEDROCK_THICKNESS]
  exact hok _ _ (by omega) (by omega) hc1 hc2

/-- Claim C6: the leveling loop leaves `experience < level * 100`
(`XP_PER_LEVEL = 100`), never decreases the level, and on the concrete
scenario `level = 1, experience = 250` stops at `level = 2,
experience = 150`. -/
theorem leveling_loop_spec (level exp : Nat) (_h : 1 ≤ level) :
    (levelLoop level exp).2 < (levelLoop level exp).1 * 100 ∧
    level ≤ (levelLoop level exp).1 ∧
    levelLoop 1 250 = (2, 150) :=
  ⟨(levelLoop_post level exp).1, (levelLoop_post level exp).2, levelLoop_1_250⟩

theorem leveling_loop_spec_witness :
    (levelLoop 1 250).2 < (levelLoop 1 250).1 * 100 ∧
    1 ≤ (levelLoop 1 250).1 ∧
    levelLoop 1 250 = (2, 150) :=
  leveling_loop_spec 1 250 (by norm_num)

/-- Claim C7 counterexample: a vein walk of length 0 performs no write at all
— in particular the starting stone cell at (row 133, col 5) stays stone and
is not converted to the vein's ore kind, contrary to the claim that exactly
the single starting cell is placed. -/
theorem vein_length0_leaves_start_cell :
    wStone 133 5 = some BlockType.stone ∧
    (veinWalk wStone rngA BlockType.coal 0 5 133).1 133 5
      = some BlockType.stone ∧
    (veinWalk wStone rngA BlockType.coal 0 5 133).1 133 5
      ≠ some BlockType.coal := by
  refine ⟨rfl, rfl, ?_⟩
  intro h
  exact BlockType.noConfusion (Option.some.inj h)

/-- Claim C7 (amended): a vein walk of length 0 terminates immediately with
the grid (and random state) unchanged; any cell write, including the starting
cell's, happens only inside a loop iteration, of which length 0 has none. -/
theorem vein_length0_no_mutation (w : World) (rng : RNG) (ore : BlockType)
    (col row : Int) :
    veinWalk w rng ore 0 col row = (w, rng) := rfl

set_option maxRecDepth 40000 in
/-- Claim C4 counterexample: ground heights are not a `±2`-step random walk.
With stream `rngA` the first two thickness draws are 4 and 8, so the first
two ground levels are 129 and 125 — adjacent columns four rows apart,
exceeding the claimed per-step delta bound.  And `height[0]` is not a fixed
midline: stream `rngB` puts it at 125 instead of 129. -/
theorem terrain_not_bounded_walk :
    (generateWorld rngA).2.1.getD 0 0 = 129 ∧
    (generateWorld rngA).2.1.getD 1 0 = 125 ∧
    ¬ (((129 : Int) - 125).natAbs ≤ 2) ∧
    (generateWorld rngB).2.1.getD 0 0 = 125 ∧
    (generateWorld rngB).2.1.getD 0 0 ≠ (generateWorld rngA).2.1.getD 0 0 := by
  refine ⟨?_, ?_, by decide, ?_, ?_⟩ <;> decide

/-- Claim C4 (amended): each column's ground height is drawn independently as
`stone_start - randint(4, 8)`, so every ground level lies in `[125, 129]` and
adjacent columns differ by at most 4 rows (not 2).  Indices `i % COLS` and
`j % 199, j % 199 + 1` range over all columns and all adjacent pairs. -/
theorem terrain_heights_bounded (rng : RNG) (i j : Nat) :
    (125 ≤ (generateWorld rng).2.1.getD (i % COLS) 127 ∧
      (generateWorld rng).2.1.getD (i % COLS) 127 ≤ 129) ∧
    (((generateWorld rng).2.1.getD (j % 199 + 1) 127 : Int) -
        ((generateWorld rng).2.1.getD (j % 199) 127 : Int)).natAbs ≤ 4 := by
  have h1 := gls_getD_bounds rng (i % COLS) (Nat.mod_lt i (by norm_num [COLS]))
  have h2 := gls_getD_bounds rng (j % 199)
    (by have := Nat.mod_lt j (show 0 < 199 by norm_num); norm_num [COLS]; omega)
  have h3 := gls_getD_bounds rng (j % 199 + 1)
    (by have := Nat.mod_lt j (show 0 < 199 by norm_num); norm_num [COLS]; omega)
  refine ⟨h1, ?_⟩
  omega

/-- Claim C1 counterexample: issuing a mining action against cell (6, 133)
while target (5, 133) has progress 1 does not reset progress — the new
progress is the old progress plus one hit's bonus (here 2), not the bonus
alone (here 1) that a reset-then-accrue would produce. -/
theorem switching_target_keeps_progress :
    pMid.mining_target ≠ (6, 133) ∧
    pMid.mining_progress ≠ 0 ∧
    (mineAction pMid wTwoStone (6, 133)).1.mining_progress
      = pMid.mining_progress + bonusOf pMid ∧
    (mineAction pMid wTwoStone (6, 133)).1.mining_progress ≠ bonusOf pMid := by
  have hcell : wTwoStone (133 : Int) (6 : Int) = some BlockType.stone := by decide
  have hhard : hardness BlockType.stone = 3 := by decide
  refine ⟨by decide, by norm_num [pMid, initPlayer], ?_, ?_⟩ <;>
  · unfold mineAction mineBlock
    norm_num [hcell, hhard, bonusOf, pMid, initPlayer, ROWS, COLS, PLAY_ROWS,
      BEDROCK_THICKNESS,
      show BlockType.stone ≠ BlockType.bedrock from by decide]

/-- Claim C1 (amended): switching the mining target does not reset progress.
A mining action against any in-range destructible cell — the current target
or any other — always sets the target to that cell and accrues its bonus on
top of whatever progress was already stored; progress is reset to zero only
when the accrued total reaches the hardness threshold and extraction
completes. -/
theorem mining_progress_carries_over (p : Player) (w : World) (pos : Int × Int)
    (bt : BlockType)
    (hin : 0 ≤ pos.2 ∧ pos.2 < (ROWS : Int) ∧ 0 ≤ pos.1 ∧ pos.1 < (COLS : Int))
    (hcell : w pos.2 pos.1 = some bt) (hbt : bt ≠ BlockType.bedrock) :
    (mineAction p w pos).1.mining_target = pos ∧
    (¬ ((hardness bt : ℚ) * 20 ≤ p.mining_progress + bonusOf p) →
      (mineAction p w pos).1.mining_progress = p.mining_progress + bonusOf p) ∧
    (((hardness bt : ℚ) * 20 ≤ p.mining_progress + bonusOf p) →
      (mineAction p w pos).1.mining_progress = 0) := by
  have hmb : mineBlock p w pos =
      (if ((hardness bt : ℚ) * 20) ≤ p.mining_progress + bonusOf p then
        mineComplete p w pos bt
      else ({ p with mining_progress := p.mining_progress + bonusOf p }, w)) := by
    unfold mineBlock
    rw [if_pos hin, hcell]
    simp [hbt]
  refine ⟨rfl, ?_, ?_⟩
  · intro hlt
    unfold mineAction
    rw [hmb, if_neg hlt]
  · intro hge
    unfold mineAction
    rw [hmb, if_pos hge]
    rfl

theorem mining_progress_carries_over_witness :
    (mineAction (initPlayer 0 0) wStone (5, 133)).1.mining_progress
      = (initPlayer 0 0).mining_progress + bonusOf (initPlayer 0 0) :=
  (mining_progress_carries_over (initPlayer 0 0) wStone (5, 133)
    BlockType.stone (by decide) (by decide) (by decide)).2.1
    (by norm_num [show hardness BlockType.stone = 3 from by decide, initPlayer,
      bonusOf])

/-- Claim C5: a mining action against an empty or bedrock cell is rejected
with no state change at all — the player (progress, inventory, XP) and the
world are returned untouched — and consequently any number of repeated
attempts leaves the state fixed: progress stays at its initial value and the
cell is never cleared. -/
theorem mining_rejected_no_change (p : Player) (w : World) (pos : Int × Int)
    (h : w pos.2 pos.1 = none ∨ w pos.2 pos.1 = some BlockType.bedrock) :
    mineBlock p w pos = (p, w) ∧
    ∀ n : Nat,
      (fun s : Player × World => mineBlock s.1 s.2 pos)^[n] (p, w) = (p, w) := by
  have h1 : mineBlock p w pos = (p, w) := by
    unfold mineBlock
    split_ifs with hb
    · rcases h with h | h
      · rw [h]
      · rw [h]
        simp
    · rfl
  refine ⟨h1, ?_⟩
  intro n
  induction n with
  | zero => rfl
  | succ n ih =>
      rw [Function.iterate_succ_apply]
      have hstep : mineBlock (p, w).1 (p, w).2 pos = (p, w) := h1
      rw [hstep, ih]

theorem mining_rejected_no_change_witness :
    mineBlock (initPlayer 0 0) wBedrock (0, 0) = (initPlayer 0 0, wBedrock) :=
  (mining_rejected_no_change (initPlayer 0 0) wBedrock (0, 0) (Or.inr rfl)).1

/-- Claim C3 (code-bug evidence): the vertical collision scan does not treat
out-of-range columns as non-occupied — it indexes `world[bottom_row][col]`
with no column bound check, so a body at `x = 6369` (whose right edge reaches
column 200 on a 200-column grid) raises `IndexError` even though every cell
it scans over the grid is empty. -/
theorem vertical_scan_index_error :
    verticalStep emptyWorld 6369 0 0 32 32 0 false = Except.error () := by
  have h1 : ⌊(6369 : ℚ) / 32⌋ = (199 : Int) := by
    rw [Int.floor_eq_iff]
    norm_num
  have h2 : ⌊((6369 : ℚ) + 32 - 1) / 32⌋ = (200 : Int) := by
    rw [Int.floor_eq_iff]
    norm_num
  have h3 :
      ⌊((0 : ℚ) + (if false then (0 : ℚ) else (0 : ℚ) + GRAVITY * 0) * 0 + 32)
        / 32⌋ = (1 : Int) := by
    rw [Int.floor_eq_iff]
    norm_num [GRAVITY]
  unfold verticalStep
  dsimp only
  rw [h1, h2, h3]
  rw [show vertScanLoop emptyWorld 1 (intRange 199 (200 + 1))
      = Except.error () from rfl]

/-! ## Shop lemmas -/

theorem invLookup_filter_eq (k : InvKey) (l : List (InvKey × String × Nat)) :
    invLookup (l.filter (fun e => decide (e.1 = k))) k = invLookup l k := by
  induction l with
  | nil => rfl
  | cons e es ih =>
      by_cases he : e.1 = k
      · simp [List.filter_cons, he, invLookup]
      · simp [List.filter_cons, he, invLookup, ih]

theorem foldl_add_map_sum (f : InvKey × String × Nat → ℚ) :
    ∀ (l : List (InvKey × String × Nat)) (a : ℚ),
      l.foldl (fun acc e => acc + f e) a = a + (l.map f).sum := by
  intro l
  induction l with
  | nil => intro a; simp
  | cons e es ih =>
      intro a
      rw [List.foldl_cons, ih, List.map_cons, List.sum_cons]
      ring

/-- Claim C8: selling goods removes exactly the inventory entries whose key is
not `0`, keeping the slot-0 Pickaxe entry untouched; money grows by the
truncation of `Σ hardness * 5 * count * block_value_multiplier` over the
removed entries; and every other player field is unchanged. -/
theorem sell_goods_effect (p : Player) :
    (sellGoods p).inventory
      = p.inventory.filter (fun e => decide (e.1 = InvKey.slot 0)) ∧
    invLookup (sellGoods p).inventory (InvKey.slot 0)
      = invLookup p.inventory (InvKey.slot 0) ∧
    (sellGoods p).money = p.money +
      ratTrunc (((p.inventory.filter (fun e => decide (¬ e.1 = InvKey.slot 0))).map
        (fun e => ((hardnessByName e.2.1 * 5 : Nat) : ℚ) * (e.2.2 : ℚ) *
          p.block_value_multiplier)).sum) ∧
    (sellGoods p).x = p.x ∧ (sellGoods p).y = p.y ∧
    (sellGoods p).width = p.width ∧ (sellGoods p).height = p.height ∧
    (sellGoods p).vel_x = p.vel_x ∧ (sellGoods p).vel_y = p.vel_y ∧
    (sellGoods p).on_ground = p.on_ground ∧
    (sellGoods p).selected_slot = p.selected_slot ∧
    (sellGoods p).health = p.health ∧ (sellGoods p).max_health = p.max_health ∧
    (sellGoods p).stamina = p.stamina ∧
    (sellGoods p).max_stamina = p.max_stamina ∧
    (sellGoods p).level = p.level ∧ (sellGoods p).experience = p.experience ∧
    (sellGoods p).mining_progress = p.mining_progress ∧
    (sellGoods p).mining_target = p.mining_target ∧
    (sellGoods p).hurt_timer = p.hurt_timer ∧
    (sellGoods p).animation_frame = p.animation_frame ∧
    (sellGoods p).direction = p.direction ∧
    (sellGoods p).inventory_slots = p.inventory_slots ∧
    (sellGoods p).pickaxe_multiplier = p.pickaxe_multiplier ∧
    (sellGoods p).movement_multiplier = p.movement_multiplier ∧
    (sellGoods p).block_value_multiplier = p.block_value_multiplier ∧
    (sellGoods p).double_jump_unlocked = p.double_jump_unlocked ∧
    (sellGoods p).triple_jump_unlocked = p.triple_jump_unlocked ∧
    (sellGoods p).jumps_remaining = p.jumps_remaining := by
  refine ⟨rfl, ?_, ?_, rfl, rfl, rfl, rfl, rfl, rfl, rfl, rfl, rfl, rfl, rfl,
    rfl, rfl, rfl, rfl, rfl, rfl, rfl, rfl, rfl, rfl, rfl, rfl, rfl, rfl, rfl⟩
  · exact invLookup_filter_eq (InvKey.slot 0) p.inventory
  · have hm : (sellGoods p).money = p.money +
        ratTrunc
          ((p.inventory.filter (fun e => decide (¬ e.1 = InvKey.slot 0))).foldl
            (fun acc e =>
              acc + ((hardnessByName e.2.1 * 5 : Nat) : ℚ) * (e.2.2 : ℚ) *
                p.block_value_multiplier)
            0) := rfl
    rw [hm, foldl_add_map_sum, zero_add]

/-- Claim C9: the double-jump and triple-jump purchases are no-ops when the
corresponding unlock flag is already set — the entire player state, money
included, is returned unchanged, so a one-time upgrade is never charged
twice. -/
theorem jump_upgrades_idempotent (p q : Player)
    (hp : p.double_jump_unlocked = true) (hq : q.triple_jump_unlocked = true) :
    shopUpgradeDoubleJump p = p ∧ shopUpgradeTripleJump q = q := by
  constructor
  · unfold shopUpgradeDoubleJump
    rw [if_neg]
    rintro ⟨h1, -⟩
    exact h1 hp
  · unfold shopUpgradeTripleJump
    rw [if_neg]
    rintro ⟨h1, -⟩
    exact h1 hq

/-- A player with both jump upgrades already purchased. -/
def pJumps : Player :=
  { initPlayer 0 0 with
      double_jump_unlocked := true, triple_jump_unlocked := true }

theorem jump_upgrades_idempotent_witness :
    shopUpgradeDoubleJump pJumps = pJumps ∧
    shopUpgradeTripleJump pJumps = pJumps :=
  jump_upgrades_idempotent pJumps pJumps rfl rfl

/-- Claim C10: every shop operation preserves non-negativity of money:
upgrades charge their cost only when `money ≥ cost`, and selling adds the
truncation of a non-negative total (non-negative because counts, hardness and
the sell multiplier are all non-negative).  The block-value upgrade also
keeps the sell multiplier non-negative, so the pair of hypotheses is a true
invariant of the shop. -/
theorem shop_money_nonneg (p : Player) (hm : 0 ≤ p.money)
    (hb : 0 ≤ p.block_value_multiplier) :
    0 ≤ (sellGoods p).money ∧
    0 ≤ (shopUpgradeBackpack p).money ∧
    0 ≤ (shopUpgradePickaxe p).money ∧
    0 ≤ (shopUpgradeMovement p).money ∧
    0 ≤ (shopUpgradeDoubleJump p).money ∧
    0 ≤ (shopUpgradeTripleJump p).money ∧
    0 ≤ (shopUpgradeBlockValue p).money ∧
    0 ≤ (shopUpgradeBlockValue p).block_value_multiplier := by
  have htot : (0 : ℚ) ≤
      (p.inventory.filter (fun e => decide (¬ e.1 = InvKey.slot 0))).foldl
        (fun acc e =>
          acc + ((hardnessByName e.2.1 * 5 : Nat) : ℚ) * (e.2.2 : ℚ) *
            p.block_value_multiplier)
        0 := by
    refine foldl_invariant (fun q : ℚ => 0 ≤ q) _ ?_ _ _ le_rfl
    intro a e ha
    have hterm : (0 : ℚ) ≤
        ((hardnessByName e.2.1 * 5 : Nat) : ℚ) * (e.2.2 : ℚ) *
          p.block_value_multiplier :=
      mul_nonneg (mul_nonneg (Nat.cast_nonneg _) (Nat.cast_nonneg _)) hb
    linarith
  have hsell : 0 ≤ (sellGoods p).money := by
    have hmoney : (sellGoods p).money = p.money +
        ratTrunc
          ((p.inventory.filter (fun e => decide (¬ e.1 = InvKey.slot 0))).foldl
            (fun acc e =>
              acc + ((hardnessByName e.2.1 * 5 : Nat) : ℚ) * (e.2.2 : ℚ) *
                p.block_value_multiplier)
            0) := rfl
    rw [hmoney, ratTrunc, if_neg (not_lt.2 htot)]
    have hfl : (0 : Int) ≤ ⌊(p.inventory.filter
        (fun e => decide (¬ e.1 = InvKey.slot 0))).foldl
          (fun acc e =>
            acc + ((hardnessByName e.2.1 * 5 : Nat) : ℚ) * (e.2.2 : ℚ) *
              p.block_value_multiplier)
          0⌋ := Int.le_floor.2 (by exact_mod_cast htot)
    omega
  refine ⟨hsell, ?_, ?_, ?_, ?_, ?_, ?_, ?_⟩
  · unfold shopUpgradeBackpack
    split_ifs with h
    · show (0 : Int) ≤ p.money - 100
      omega
    · exact hm
  · unfold shopUpgradePickaxe
    split_ifs with h
    · show (0 : Int) ≤ p.money - 200
      omega
    · exact hm
  · unfold shopUpgradeMovement
    split_ifs with h
    · show (0 : Int) ≤ p.money - 150
      omega
    · exact hm
  · unfold shopUpgradeDoubleJump
    split_ifs with h
    · show (0 : Int) ≤ p.money - 250
      have := h.2
      omega
    · exact hm
  · unfold shopUpgradeTripleJump
    split_ifs with h
    · show (0 : Int) ≤ p.money - 500
      have := h.2
      omega
    · exact hm
  · unfold shopUpgradeBlockValue
    split_ifs with h
    · show (0 : Int) ≤ p.money - 75
      omega
    · exact hm
  · unfold shopUpgradeBlockValue
    split_ifs with h
    · show (0 : ℚ) ≤ p.block_value_multiplier * (6 / 5)
      have : (0 : ℚ) ≤ (6 : ℚ) / 5 := by norm_num
      exact mul_nonneg hb this
    · exact hb

theorem shop_money_nonneg_witness :
    0 ≤ (sellGoods (initPlayer 0 0)).money ∧
    0 ≤ (shopUpgradeBackpack (initPlayer 0 0)).money ∧
    0 ≤ (shopUpgradePickaxe (initPlayer 0 0)).money ∧
    0 ≤ (shopUpgradeMovement (initPlayer 0 0)).money ∧
    0 ≤ (shopUpgradeDoubleJump (initPlayer 0 0)).money ∧
    0 ≤ (shopUpgradeTripleJump (initPlayer 0 0)).money ∧
    0 ≤ (shopUpgradeBlockValue (initPlayer 0 0)).money ∧
    0 ≤ (shopUpgradeBlockValue (initPlayer 0 0)).block_value_multiplier :=
  shop_money_nonneg (initPlayer 0 0) (by norm_num [initPlayer])
    (by norm_num [initPlayer])
